import Mathlib

/-!
Verification of the real-time voice translation front end.

The definitions below are shallow embeddings of the functions in
`src/components/VoiceRecorder.tsx`, `src/components/TranslationDisplay.tsx`
and the unnamed page/component sources.  Machine floats are modelled as
rationals, byte values as natural numbers below 256, and the browser
callbacks (audio capture, socket events, audio element completion) as
explicit events folded over a state type.
-/

namespace RTVT

/-! ### Audio chunker

`processor.onaudioprocess` in `VoiceRecorder.tsx` (lines 500-554) pushes each
incoming capture frame onto `audioBuffer`; once the accumulated sample count
reaches `samplesPerChunk = Math.floor(CHUNK_DURATION * sampleRate)` with
`CHUNK_DURATION = 2.0`, it concatenates the buffered frames in arrival order,
emits the result as one chunk, and clears the buffer.  The socket is assumed
connected (when it is not, the code drops the buffered chunk instead of
emitting it).  `stopRecording` (lines 624-654) disconnects the processor and
stops the tracks; it never emits the samples still sitting in `audioBuffer`.
-/

/-- Threshold in samples: `Math.floor(2.0 * sampleRate)`. -/
def samplesPerChunk (sampleRate : Nat) : Nat := 2 * sampleRate

/-- ScriptProcessor frame size chosen in the source (`bufferSize = 4096`). -/
def bufferSize : Nat := 4096

/-- One `onaudioprocess` callback: append the frame to the accumulation
buffer; when the accumulated length reaches the threshold, emit the whole
buffer as a chunk and clear it.  State is `(buffer, chunks emitted so far)`. -/
def chunkStep (T : Nat) (st : List α × List (List α)) (frame : List α) :
    List α × List (List α) :=
  let buf := st.1 ++ frame
  if T ≤ buf.length then ([], st.2 ++ [buf]) else (buf, st.2)

/-- Feed a whole session of capture frames through the chunker, starting from
the empty buffer. -/
def runChunker (T : Nat) (frames : List (List α)) : List α × List (List α) :=
  frames.foldl (chunkStep T) ([], [])

/-- The chunks a session actually emits.  `stopRecording` performs no flush,
so the residual buffer `(runChunker T frames).1` is discarded. -/
def sessionEmitted (T : Nat) (frames : List (List α)) : List (List α) :=
  (runChunker T frames).2

/-- Total number of samples emitted over the session. -/
def totalEmitted (T : Nat) (frames : List (List α)) : Nat :=
  ((sessionEmitted T frames).map List.length).sum

/-- Invariant of the chunker fold: starting from a buffer shorter than the
threshold and chunks each shorter than `T + F`, processing frames of size `F`
preserves sample order and content, keeps the buffer short, and keeps every
emitted chunk shorter than `T + F`. -/
theorem chunkStep_fold_inv (T F : Nat) (hT : 0 < T) :
    ∀ (frames : List (List α)) (buf : List α) (chunks : List (List α)),
      (∀ f ∈ frames, f.length = F) → buf.length < T →
      (∀ c ∈ chunks, c.length < T + F) →
      (frames.foldl (chunkStep T) (buf, chunks)).2.flatten ++
          (frames.foldl (chunkStep T) (buf, chunks)).1 =
        chunks.flatten ++ buf ++ frames.flatten ∧
      (frames.foldl (chunkStep T) (buf, chunks)).1.length < T ∧
      ∀ c ∈ (frames.foldl (chunkStep T) (buf, chunks)).2, c.length < T + F := by
  intro frames
  induction frames with
  | nil =>
    intro buf chunks _ hbuf hchunks
    exact ⟨by simp, hbuf, hchunks⟩
  | cons f fs ih =>
    intro buf chunks hF hbuf hchunks
    have hf : f.length = F := hF f (by simp)
    have hfs : ∀ g ∈ fs, g.length = F := fun g hg => hF g (by simp [hg])
    simp only [List.foldl_cons]
    by_cases hemit : T ≤ (buf ++ f).length
    · have hemit2 : T ≤ buf.length + f.length := by simpa using hemit
      have hstep : chunkStep T (buf, chunks) f = ([], chunks ++ [buf ++ f]) := by
        simp [chunkStep, hemit2]
      rw [hstep]
      have hnew : ∀ c ∈ chunks ++ [buf ++ f], c.length < T + F := by
        intro c hc
        rcases List.mem_append.mp hc with h | h
        · exact hchunks c h
        · have : c = buf ++ f := by simpa using h
          subst this
          simp only [List.length_append, hf]
          omega
      have := ih [] (chunks ++ [buf ++ f]) hfs (by simpa using hT) hnew
      refine ⟨?_, this.2.1, this.2.2⟩
      rw [this.1]
      simp
    · have hemit2 : ¬ T ≤ buf.length + f.length := by simpa using hemit
      have hstep : chunkStep T (buf, chunks) f = (buf ++ f, chunks) := by
        simp [chunkStep, hemit2]
      rw [hstep]
      have hlt : (buf ++ f).length < T := Nat.lt_of_not_le hemit
      have := ih (buf ++ f) chunks hfs hlt hchunks
      refine ⟨?_, this.2.1, this.2.2⟩
      rw [this.1]
      simp

/-- C1 (counterexample): with the source constants (sample rate 16000, so
threshold `T = 32000`, frame size `F = 4096`), a session of `N = 1` frame
emits `0` samples in total, not `N × F = 4096`: the samples left in the
accumulation buffer are discarded when the session ends, never flushed as a
final partial chunk. -/
theorem chunker_total_counterexample :
    totalEmitted (samplesPerChunk 16000) [List.replicate bufferSize (0 : Int)] = 0 ∧
    totalEmitted (samplesPerChunk 16000) [List.replicate bufferSize (0 : Int)] ≠
      1 * bufferSize := by
  have hlen : (List.replicate bufferSize (0 : Int)).length = 4096 := by
    rw [List.length_replicate, bufferSize]
  have hrun : runChunker (samplesPerChunk 16000)
      [List.replicate bufferSize (0 : Int)] =
      (List.replicate bufferSize (0 : Int), []) := by
    simp only [runChunker, List.foldl_cons, List.foldl_nil, chunkStep,
      List.nil_append]
    rw [hlen, if_neg (by norm_num [samplesPerChunk])]
  have h : totalEmitted (samplesPerChunk 16000)
      [List.replicate bufferSize (0 : Int)] = 0 := by
    simp [totalEmitted, sessionEmitted, hrun]
  exact ⟨h, by rw [h]; simp [bufferSize]⟩

/-- Concrete session used to witness the amended chunker theorem. -/
def c1Frames : List (List Int) := [[1, 2], [3, 4], [5, 6]]

/-- C1 (amended): for a streaming session of frames of `F` samples each and
threshold `0 < T`, the emitted chunks concatenated with the residual buffer
reproduce the captured samples exactly — nothing skipped, truncated,
duplicated or reordered — every emitted chunk holds fewer than `T + F`
samples, and the total emitted equals `N × F` minus the residual buffer
length (itself below `T`).  The residual is discarded at session end, not
flushed, so the total emitted is in general strictly below `N × F`. -/
theorem chunker_session_spec (T F : Nat) (frames : List (List Int))
    (hT : 0 < T) (hF : ∀ f ∈ frames, f.length = F) :
    (sessionEmitted T frames).flatten ++ (runChunker T frames).1 =
      frames.flatten ∧
    (runChunker T frames).1.length < T ∧
    (∀ c ∈ sessionEmitted T frames, c.length < T + F) ∧
    totalEmitted T frames + (runChunker T frames).1.length =
      frames.length * F := by
  have h := chunkStep_fold_inv T F hT frames [] [] hF (by simpa using hT)
    (by simp)
  have hflat : (sessionEmitted T frames).flatten ++ (runChunker T frames).1 =
      frames.flatten := by
    simpa [sessionEmitted, runChunker] using h.1
  refine ⟨hflat, by simpa [runChunker] using h.2.1,
    by simpa [sessionEmitted, runChunker] using h.2.2, ?_⟩
  have hlen := congrArg List.length hflat
  have hsum : ∀ (l : List (List Int)), (∀ f ∈ l, f.length = F) →
      l.flatten.length = l.length * F := by
    intro l hl
    induction l with
    | nil => simp
    | cons x xs ih =>
      have hx : x.length = F := hl x (by simp)
      have hxs : ∀ f ∈ xs, f.length = F := fun f hf => hl f (by simp [hf])
      simp [hx, ih hxs, Nat.succ_mul, Nat.add_comm]
  rw [hsum frames hF] at hlen
  simp only [List.length_append, List.length_flatten] at hlen
  simpa [totalEmitted, List.length_flatten] using hlen

/-- C1 (witness): the amended theorem instantiated at `T = 3`, `F = 2` and
three concrete frames; one chunk of four samples is emitted and two samples
stay in the residual buffer. -/
theorem chunker_session_spec_witness :
    (0 < 3 ∧ ∀ f ∈ c1Frames, f.length = 2) ∧
    ((sessionEmitted 3 c1Frames).flatten ++ (runChunker 3 c1Frames).1 =
      c1Frames.flatten ∧
    (runChunker 3 c1Frames).1.length < 3 ∧
    (∀ c ∈ sessionEmitted 3 c1Frames, c.length < 3 + 2) ∧
    totalEmitted 3 c1Frames + (runChunker 3 c1Frames).1.length =
      c1Frames.length * 2) :=
  ⟨⟨by decide, by decide⟩,
    chunker_session_spec 3 2 c1Frames (by decide) (by decide)⟩

/-! ### Sample quantization

`processor.onaudioprocess` converts the captured float samples to 16-bit
integers (`VoiceRecorder.tsx` lines 524-529):
`const s = Math.max(-1, Math.min(1, combined[i]));`
`int16Array[i] = s < 0 ? s * 0x8000 : s * 0x7FFF;`
Assignment into an `Int16Array` truncates the number toward zero.  Samples
are modelled as rationals; the truncation is explicit.
-/

/-- `Math.max(-1, Math.min(1, s))`. -/
def clampSample (s : ℚ) : ℚ := max (-1) (min 1 s)

/-- Truncation toward zero, as performed by storing into an `Int16Array`
(no wrap occurs for the values produced here). -/
def ratTrunc (q : ℚ) : Int := if q < 0 then -Int.floor (-q) else Int.floor q

/-- `s < 0 ? s * 0x8000 : s * 0x7FFF` applied to the clamped sample. -/
def quantizeSample (s : ℚ) : Int :=
  let c := clampSample s
  if c < 0 then ratTrunc (c * 32768) else ratTrunc (c * 32767)

/-- C2: quantization clamps to `[-1, 1]`, scales negative values by 32768 and
the rest by 32767, truncating toward zero; the output always lies in
`[-32768, 32767]`, `0` maps to `0`, `1` maps to `32767` and `-1` maps to
`-32768`. -/
theorem quantizeSample_spec :
    (∀ s : ℚ, -32768 ≤ quantizeSample s ∧ quantizeSample s ≤ 32767) ∧
    quantizeSample 0 = 0 ∧ quantizeSample 1 = 32767 ∧
    quantizeSample (-1) = -32768 := by
  refine ⟨?_, ?_, ?_, ?_⟩
  · intro s
    have hc1 : (-1 : ℚ) ≤ clampSample s := le_max_left _ _
    have hc2 : clampSample s ≤ 1 := max_le (by norm_num) (min_le_left _ _)
    by_cases hneg : clampSample s < 0
    · have hq1 : (-32768 : ℚ) ≤ clampSample s * 32768 := by nlinarith
      have hq2 : clampSample s * 32768 < 0 := by nlinarith
      have htr : quantizeSample s = -Int.floor (-(clampSample s * 32768)) := by
        rw [quantizeSample, if_pos hneg, ratTrunc, if_pos hq2]
      have hup : Int.floor (-(clampSample s * 32768)) ≤ 32768 := by
        have hle : -(clampSample s * 32768) ≤ ((32768 : ℤ) : ℚ) := by
          push_cast
          linarith
        have := Int.floor_le_floor hle
        simpa using this
      have hdown : 0 ≤ Int.floor (-(clampSample s * 32768)) :=
        Int.floor_nonneg.mpr (by linarith)
      rw [htr]
      omega
    · have hpos : (0 : ℚ) ≤ clampSample s := not_lt.mp hneg
      have hq1 : (0 : ℚ) ≤ clampSample s * 32767 := by nlinarith
      have hq2 : clampSample s * 32767 ≤ 32767 := by nlinarith
      have htr : quantizeSample s = Int.floor (clampSample s * 32767) := by
        rw [quantizeSample, if_neg hneg, ratTrunc, if_neg (not_lt.mpr hq1)]
      have hup : Int.floor (clampSample s * 32767) ≤ 32767 := by
        have hle : clampSample s * 32767 ≤ ((32767 : ℤ) : ℚ) := by
          push_cast
          linarith
        have := Int.floor_le_floor hle
        simpa using this
      have hdown : 0 ≤ Int.floor (clampSample s * 32767) :=
        Int.floor_nonneg.mpr hq1
      rw [htr]
      omega
  · have hcl : clampSample 0 = 0 := by
      rw [clampSample]
      norm_num
    rw [quantizeSample, hcl]
    norm_num [ratTrunc]
  · have hcl : clampSample 1 = 1 := by
      rw [clampSample]
      norm_num
    rw [quantizeSample, hcl, if_neg (by norm_num), ratTrunc,
      if_neg (by norm_num)]
    norm_num
  · have hcl : clampSample (-1) = -1 := by
      rw [clampSample]
      norm_num
    rw [quantizeSample, hcl, if_pos (by norm_num), ratTrunc,
      if_pos (by norm_num)]
    norm_num

/-! ### Text-safe encoding

`processor.onaudioprocess` (lines 531-539) builds a binary string from the
Int16 byte buffer in windows of `chunkSize = 8192` bytes
(`String.fromCharCode` over each window, concatenated) and then applies the
browser primitive `btoa` once to the whole string.  Bytes are modelled as
naturals below 256; `String.fromCharCode` on byte values is the identity on
codes, so the windowed loop concatenates the windows back together.  `btoa`
and `atob` are the standard base64 primitives the browser supplies, modelled
here over character lists.
-/

/-- The 64-character base64 alphabet used by `btoa`. -/
def base64Alphabet : List Char :=
  ['A', 'B', 'C', 'D', 'E', 'F', 'G', 'H', 'I', 'J', 'K', 'L', 'M',
   'N', 'O', 'P', 'Q', 'R', 'S', 'T', 'U', 'V', 'W', 'X', 'Y', 'Z',
   'a', 'b', 'c', 'd', 'e', 'f', 'g', 'h', 'i', 'j', 'k', 'l', 'm',
   'n', 'o', 'p', 'q', 'r', 's', 't', 'u', 'v', 'w', 'x', 'y', 'z',
   '0', '1', '2', '3', '4', '5', '6', '7', '8', '9', '+', '/']

/-- Value-to-character map of the base64 alphabet. -/
def sextetToChar (n : Nat) : Char := base64Alphabet.getD n '='

/-- Character-to-value map of the base64 alphabet. -/
def charToSextet (c : Char) : Nat := base64Alphabet.indexOf c

/-- Browser `btoa`: encode a byte sequence in 3-byte groups, padding the
final partial group with `=`. -/
def btoa : List Nat → List Char
  | [] => []
  | [b1] => [sextetToChar (b1 / 4), sextetToChar (b1 % 4 * 16), '=', '=']
  | [b1, b2] => [sextetToChar (b1 / 4), sextetToChar (b1 % 4 * 16 + b2 / 16),
                 sextetToChar (b2 % 16 * 4), '=']
  | b1 :: b2 :: b3 :: rest =>
      sextetToChar (b1 / 4) :: sextetToChar (b1 % 4 * 16 + b2 / 16) ::
      sextetToChar (b2 % 16 * 4 + b3 / 64) :: sextetToChar (b3 % 64) ::
      btoa rest

/-- Browser `atob`: decode 4-character groups, honouring `=` padding. -/
def atob : List Char → List Nat
  | c1 :: c2 :: c3 :: c4 :: rest =>
      if c3 = '=' then [charToSextet c1 * 4 + charToSextet c2 / 16]
      else if c4 = '=' then
        [charToSextet c1 * 4 + charToSextet c2 / 16,
         charToSextet c2 % 16 * 16 + charToSextet c3 / 4]
      else
        (charToSextet c1 * 4 + charToSextet c2 / 16) ::
        (charToSextet c2 % 16 * 16 + charToSextet c3 / 4) ::
        (charToSextet c3 % 4 * 64 + charToSextet c4) ::
        atob rest
  | _ => []

/-- The windowed binary-string construction: take windows of at most 8192
bytes and concatenate their character codes (`String.fromCharCode` is the
identity on byte values). -/
def bytesToBinary (bytes : List Nat) : List Nat :=
  if bytes = [] then []
  else bytes.take 8192 ++ bytesToBinary (bytes.drop 8192)
termination_by bytes.length
decreasing_by
  rename_i hne
  have : bytes.length ≠ 0 := fun h0 => hne (List.length_eq_zero.mp h0)
  simp only [List.length_drop]
  omega

/-- The full encoder of the source: windowed binary string, then `btoa`. -/
def encodeBase64 (bytes : List Nat) : List Char := btoa (bytesToBinary bytes)

theorem charToSextet_sextetToChar : ∀ n < 64,
    charToSextet (sextetToChar n) = n := by decide

theorem sextetToChar_ne_pad : ∀ n < 64, sextetToChar n ≠ '=' := by decide

theorem atob_btoa (B : List Nat) (h : ∀ b ∈ B, b < 256) :
    atob (btoa B) = B := by
  induction B using btoa.induct with
  | case1 => rfl
  | case2 b1 =>
    have hb1 : b1 < 256 := h b1 (by simp)
    simp only [btoa, atob, eq_self_iff_true, if_true]
    rw [charToSextet_sextetToChar (b1 / 4) (by omega),
      charToSextet_sextetToChar (b1 % 4 * 16) (by omega)]
    simp only [List.cons.injEq, eq_self_iff_true, and_true]
    omega
  | case3 b1 b2 =>
    have hb1 : b1 < 256 := h b1 (by simp)
    have hb2 : b2 < 256 := h b2 (by simp)
    have hne : sextetToChar (b2 % 16 * 4) ≠ '=' :=
      sextetToChar_ne_pad _ (by omega)
    simp only [btoa, atob, hne, eq_self_iff_true, if_true, if_false]
    rw [charToSextet_sextetToChar (b1 / 4) (by omega),
      charToSextet_sextetToChar (b1 % 4 * 16 + b2 / 16) (by omega),
      charToSextet_sextetToChar (b2 % 16 * 4) (by omega)]
    simp only [List.cons.injEq, eq_self_iff_true, and_true]
    omega
  | case4 b1 b2 b3 rest ih =>
    have hb1 : b1 < 256 := h b1 (by simp)
    have hb2 : b2 < 256 := h b2 (by simp)
    have hb3 : b3 < 256 := h b3 (by simp)
    have hrest : ∀ b ∈ rest, b < 256 := fun b hb => h b (by simp [hb])
    have hne3 : sextetToChar (b2 % 16 * 4 + b3 / 64) ≠ '=' :=
      sextetToChar_ne_pad _ (by omega)
    have hne4 : sextetToChar (b3 % 64) ≠ '=' :=
      sextetToChar_ne_pad _ (by omega)
    simp only [btoa, atob, hne3, hne4, if_false]
    rw [charToSextet_sextetToChar (b1 / 4) (by omega),
      charToSextet_sextetToChar (b1 % 4 * 16 + b2 / 16) (by omega),
      charToSextet_sextetToChar (b2 % 16 * 4 + b3 / 64) (by omega),
      charToSextet_sextetToChar (b3 % 64) (by omega)]
    rw [ih hrest]
    simp only [List.cons.injEq, eq_self_iff_true, and_true]
    omega

theorem bytesToBinary_id_aux :
    ∀ (n : Nat) (B : List Nat), B.length ≤ n → bytesToBinary B = B := by
  intro n
  induction n with
  | zero =>
    intro B hB
    have : B = [] := List.length_eq_zero.mp (Nat.le_zero.mp hB)
    subst this
    rw [bytesToBinary]
    simp
  | succ m ih =>
    intro B hB
    by_cases hemp : B = []
    · subst hemp
      rw [bytesToBinary]
      simp
    · rw [bytesToBinary, if_neg hemp]
      have hlen : B.length ≠ 0 := fun h0 => hemp (List.length_eq_zero.mp h0)
      have : (B.drop 8192).length ≤ m := by
        simp only [List.length_drop]
        omega
      rw [ih (B.drop 8192) this, List.take_append_drop]

/-- The windowed binary-string build is the identity on the byte sequence:
window boundaries, whether or not the length is an exact multiple of 8192,
do not alter any byte. -/
theorem bytesToBinary_id (B : List Nat) : bytesToBinary B = B :=
  bytesToBinary_id_aux B.length B le_rfl

/-- C3: decoding the windowed base64 encoding of any byte sequence gives the
original bytes back; window boundaries at 8192 bytes (multiples and
non-multiples alike) do not break the round trip. -/
theorem base64_roundtrip (B : List Nat) (h : ∀ b ∈ B, b < 256) :
    atob (encodeBase64 B) = B := by
  rw [encodeBase64, bytesToBinary_id]
  exact atob_btoa B h

/-- C3 (witness): the round trip evaluated on a concrete four-byte sequence
(a non-multiple of both the window size and the base64 group size). -/
theorem base64_roundtrip_witness :
    (∀ b ∈ [0, 255, 16, 7], b < 256) ∧
    atob (encodeBase64 [0, 255, 16, 7]) = [0, 255, 16, 7] :=
  ⟨by decide, base64_roundtrip [0, 255, 16, 7] (by decide)⟩

/-! ### Playback queue (`TranslationDisplay.tsx`)

State of the component: `audioQueueRef` (FIFO of pending entries),
`isPlayingQueueRef` (queue-consumer busy flag), `audioRef` (the single
`HTMLAudioElement`, here tagged with which completion handler was installed
on it), and `playingIndex`.  The three relevant code paths are the auto-play
`useEffect` (lines 35-51), `playNextInQueue` (lines 53-95) and the manual
replay `playAudio` (lines 97-128).  The `onended` and `onerror` handlers, as
well as the rejection handler of `audio.play()`, installed by
`playNextInQueue` all call `playNextInQueue` again; the handlers installed by
`playAudio` only clear the playback state.  Browser callbacks are modelled as
events folded over the state; `audioRef` is a single `Option`, so at most one
payload is playing at any time by construction.  The extra fields
`startedLog` and `submitted` record history for the statements and change
nothing about the dynamics.
-/

/-- Which code path installed the completion handlers of the current audio
element. -/
inductive AudioHandler where
  | queueAuto : AudioHandler
  | manualReplay : AudioHandler
deriving DecidableEq

/-- Component state, with history fields. -/
structure PQState (α : Type) where
  audioQueue : List α
  isPlayingQueue : Bool
  audioRef : Option (α × AudioHandler)
  playingIndex : Option α
  startedLog : List α
  submitted : List α
deriving DecidableEq

/-- Initial state of the component. -/
def initPQ (α : Type) : PQState α :=
  { audioQueue := [], isPlayingQueue := false, audioRef := none,
    playingIndex := none, startedLog := [], submitted := [] }

/-- `playNextInQueue`: an empty queue marks the consumer idle; otherwise the
oldest entry is removed, the flag is set, any current audio is paused and
abandoned, and playback of the entry starts with queue handlers installed. -/
def playNextInQueue (s : PQState α) : PQState α :=
  match s.audioQueue with
  | [] => { s with isPlayingQueue := false, playingIndex := none }
  | e :: rest =>
      { s with isPlayingQueue := true, audioQueue := rest,
               audioRef := some (e, AudioHandler.queueAuto),
               playingIndex := some e, startedLog := s.startedLog ++ [e] }

/-- The auto-play `useEffect`: append the newly arrived result to the queue
and start the consumer unless it is already running. -/
def submitResult (s : PQState α) (r : α) : PQState α :=
  let s1 := { s with audioQueue := s.audioQueue ++ [r],
                     submitted := s.submitted ++ [r] }
  if s1.isPlayingQueue then s1 else playNextInQueue s1

/-- `playAudio`: manual replay.  Pauses and abandons the current audio,
starts the requested payload with the manual handlers installed, and touches
neither `audioQueueRef` nor `isPlayingQueueRef`. -/
def playAudio (s : PQState α) (r : α) : PQState α :=
  { s with audioRef := some (r, AudioHandler.manualReplay),
           playingIndex := some r, startedLog := s.startedLog ++ [r] }

/-- Completion or error of the current audio element: the queue-installed
handlers call `playNextInQueue`; the manual handlers clear the playback state
only.  No current audio means nothing fires. -/
def finishAudio (s : PQState α) : PQState α :=
  match s.audioRef with
  | none => s
  | some (_, AudioHandler.queueAuto) =>
      playNextInQueue { s with audioRef := none }
  | some (_, AudioHandler.manualReplay) =>
      { s with audioRef := none, playingIndex := none }

/-- Browser events driving the component. -/
inductive PQEvent (α : Type) where
  | submit (r : α) : PQEvent α
  | finish : PQEvent α
  | replay (r : α) : PQEvent α
deriving DecidableEq

/-- One event step. -/
def stepPQ (s : PQState α) : PQEvent α → PQState α
  | PQEvent.submit r => submitResult s r
  | PQEvent.finish => finishAudio s
  | PQEvent.replay r => playAudio s r

/-- Run the component from its initial state over a list of events. -/
def runPQ (events : List (PQEvent α)) : PQState α :=
  events.foldl stepPQ (initPQ α)

/-- Recognises the events of pure queue operation (no manual replay). -/
def isQueueEvent : PQEvent α → Bool
  | PQEvent.replay _ => false
  | _ => true

/-- The submissions carried by a list of events, in order. -/
def submitsOf (events : List (PQEvent α)) : List α :=
  events.filterMap fun e =>
    match e with
    | PQEvent.submit r => some r
    | _ => none

/-- Queue-mode invariant: history of started payloads followed by the
pending queue is exactly the submission history; the busy flag agrees with
the presence of a current audio; and the current handlers are the queue
ones. -/
def queueInv (s : PQState α) : Prop :=
  s.startedLog ++ s.audioQueue = s.submitted ∧
  s.isPlayingQueue = s.audioRef.isSome ∧
  ∀ p h, s.audioRef = some (p, h) → h = AudioHandler.queueAuto

theorem queueInv_init : queueInv (initPQ α) := by
  refine ⟨rfl, rfl, ?_⟩
  intro p h hh
  simp [initPQ] at hh

theorem submitsOf_cons (e : PQEvent α) (es : List (PQEvent α)) :
    submitsOf (e :: es) = submitsOf [e] ++ submitsOf es := by
  cases e <;> simp [submitsOf]

theorem playNext_eq_nil (s : PQState α) (h : s.audioQueue = []) :
    playNextInQueue s =
      { s with isPlayingQueue := false, playingIndex := none } := by
  unfold playNextInQueue
  rw [h]

theorem playNext_eq_cons (s : PQState α) (e : α) (rest : List α)
    (h : s.audioQueue = e :: rest) :
    playNextInQueue s =
      { s with isPlayingQueue := true, audioQueue := rest,
               audioRef := some (e, AudioHandler.queueAuto),
               playingIndex := some e,
               startedLog := s.startedLog ++ [e] } := by
  unfold playNextInQueue
  rw [h]

theorem submitResult_eq (s : PQState α) (r : α) :
    submitResult s r =
      if s.isPlayingQueue then
        { s with audioQueue := s.audioQueue ++ [r],
                 submitted := s.submitted ++ [r] }
      else
        playNextInQueue
          { s with audioQueue := s.audioQueue ++ [r],
                   submitted := s.submitted ++ [r] } := rfl

theorem finish_eq_none (s : PQState α) (h : s.audioRef = none) :
    finishAudio s = s := by
  unfold finishAudio
  rw [h]

theorem finish_eq_queue (s : PQState α) (p : α)
    (h : s.audioRef = some (p, AudioHandler.queueAuto)) :
    finishAudio s = playNextInQueue { s with audioRef := none } := by
  unfold finishAudio
  rw [h]

theorem finish_eq_manual (s : PQState α) (p : α)
    (h : s.audioRef = some (p, AudioHandler.manualReplay)) :
    finishAudio s = { s with audioRef := none, playingIndex := none } := by
  unfold finishAudio
  rw [h]

theorem playNext_submitted (t : PQState α) :
    (playNextInQueue t).submitted = t.submitted := by
  cases hqu : t.audioQueue with
  | nil => rw [playNext_eq_nil t hqu]
  | cons x q => rw [playNext_eq_cons t x q hqu]

theorem queueInv_playNext (t : PQState α)
    (h1 : t.startedLog ++ t.audioQueue = t.submitted)
    (h2 : t.audioRef = none) : queueInv (playNextInQueue t) := by
  cases hqu : t.audioQueue with
  | nil =>
    rw [playNext_eq_nil t hqu]
    refine ⟨h1, ?_, ?_⟩
    · show false = t.audioRef.isSome
      rw [h2]
      rfl
    · intro p hdl heq
      have : t.audioRef = some (p, hdl) := heq
      rw [h2] at this
      cases this
  | cons x q =>
    rw [playNext_eq_cons t x q hqu]
    refine ⟨?_, rfl, ?_⟩
    · show (t.startedLog ++ [x]) ++ q = t.submitted
      rw [← h1, hqu]
      simp
    · intro p hdl heq
      simp only [Option.some.injEq, Prod.mk.injEq] at heq
      exact heq.2.symm

theorem queueInv_step (s : PQState α) (e : PQEvent α)
    (hq : isQueueEvent e = true) (hs : queueInv s) :
    queueInv (stepPQ s e) ∧
    (stepPQ s e).submitted = s.submitted ++ submitsOf [e] := by
  obtain ⟨h1, h2, h3⟩ := hs
  cases e with
  | replay r => simp [isQueueEvent] at hq
  | submit r =>
    have hstep : stepPQ s (PQEvent.submit r) = submitResult s r := rfl
    rw [hstep, submitResult_eq]
    by_cases hb : s.isPlayingQueue
    · rw [if_pos hb]
      refine ⟨⟨?_, h2, h3⟩, rfl⟩
      show s.startedLog ++ (s.audioQueue ++ [r]) = s.submitted ++ [r]
      rw [← List.append_assoc, h1]
    · rw [if_neg hb]
      have hrefnone : s.audioRef = none := by
        cases har : s.audioRef with
        | none => rfl
        | some v =>
          rw [har] at h2
          simp at h2
          exact absurd h2 hb
      have h1t : s.startedLog ++ (s.audioQueue ++ [r]) = s.submitted ++ [r] := by
        rw [← List.append_assoc, h1]
      refine ⟨queueInv_playNext _ h1t hrefnone, ?_⟩
      rw [playNext_submitted]
      simp [submitsOf]
  | finish =>
    have hstep : stepPQ s PQEvent.finish = finishAudio s := rfl
    rw [hstep]
    cases har : s.audioRef with
    | none =>
      rw [finish_eq_none s har]
      exact ⟨⟨h1, h2, h3⟩, by simp [submitsOf]⟩
    | some v =>
      obtain ⟨p, hdl⟩ := v
      have hdlq : hdl = AudioHandler.queueAuto := h3 p hdl har
      subst hdlq
      rw [finish_eq_queue s p har]
      refine ⟨queueInv_playNext _ h1 rfl, ?_⟩
      rw [playNext_submitted]
      simp [submitsOf]

theorem queueInv_run (events : List (PQEvent α)) :
    ∀ (s : PQState α), (∀ e ∈ events, isQueueEvent e = true) → queueInv s →
      queueInv (events.foldl stepPQ s) ∧
      (events.foldl stepPQ s).submitted = s.submitted ++ submitsOf events := by
  induction events with
  | nil =>
    intro s _ hs
    exact ⟨hs, by simp [submitsOf]⟩
  | cons e es ih =>
    intro s hq hs
    have he : isQueueEvent e = true := hq e (by simp)
    have hes : ∀ x ∈ es, isQueueEvent x = true := fun x hx => hq x (by simp [hx])
    have hstep := queueInv_step s e he hs
    have := ih (stepPQ s e) hes hstep.1
    refine ⟨by simpa using this.1, ?_⟩
    rw [List.foldl_cons, this.2, hstep.2, submitsOf_cons e es]
    simp [submitsOf]

/-- C4: over any sequence of queue events (submissions and playback
completions, no manual replay), the payloads whose playback has started,
followed by the still-pending queue, are exactly the submissions in
submission order — so playback starts in submission order, and nothing is
dropped, skipped or reordered even when submissions outpace playback; the
consumer flag is set exactly while the single current audio (`audioRef`, an
`Option`, hence at most one playing payload) is present. -/
theorem playbackQueue_order (events : List (PQEvent α))
    (h : ∀ e ∈ events, isQueueEvent e = true) :
    (runPQ events).startedLog ++ (runPQ events).audioQueue =
      (runPQ events).submitted ∧
    (runPQ events).submitted = submitsOf events ∧
    (runPQ events).isPlayingQueue = (runPQ events).audioRef.isSome := by
  have hr := queueInv_run events (initPQ α) h queueInv_init
  exact ⟨hr.1.1, by simpa [initPQ] using hr.2, hr.1.2.1⟩

/-- Concrete event trace used to witness the playback ordering theorem:
results 2 and 3 are submitted before earlier playbacks finish. -/
def c4Trace : List (PQEvent Nat) :=
  [PQEvent.submit 1, PQEvent.submit 2, PQEvent.finish,
   PQEvent.submit 3, PQEvent.finish, PQEvent.finish]

/-- C4 (witness): the ordering theorem evaluated on the concrete trace. -/
theorem playbackQueue_order_witness :
    (∀ e ∈ c4Trace, isQueueEvent e = true) ∧
    ((runPQ c4Trace).startedLog ++ (runPQ c4Trace).audioQueue =
      (runPQ c4Trace).submitted ∧
    (runPQ c4Trace).submitted = submitsOf c4Trace ∧
    (runPQ c4Trace).isPlayingQueue = (runPQ c4Trace).audioRef.isSome) :=
  ⟨by decide, playbackQueue_order c4Trace (by decide)⟩

/-- C5: `playAudio` (manual replay) pauses and abandons the current audio
(replacing it without requeuing it anywhere), starts the requested payload,
and leaves the pending queue, the consumer flag and the submission history
untouched. -/
theorem playAudio_frame_effect (s : PQState α) (r : α) :
    (playAudio s r).audioQueue = s.audioQueue ∧
    (playAudio s r).isPlayingQueue = s.isPlayingQueue ∧
    (playAudio s r).submitted = s.submitted ∧
    (playAudio s r).audioRef = some (r, AudioHandler.manualReplay) ∧
    (playAudio s r).startedLog = s.startedLog ++ [r] :=
  ⟨rfl, rfl, rfl, rfl, rfl⟩

/-- C6: when a queue-started playback ends or fails (the `onended`,
`onerror` and rejected `play()` handlers all call `playNextInQueue`; errors
are logged to the console), the queue advances immediately to the next entry
rather than stalling, and the consumer goes idle exactly when the queue is
empty. -/
theorem queue_advances_on_finish (s : PQState α) (p : α)
    (h : s.audioRef = some (p, AudioHandler.queueAuto)) :
    (s.audioQueue = [] →
      (finishAudio s).isPlayingQueue = false ∧
      (finishAudio s).audioRef = none ∧
      (finishAudio s).playingIndex = none) ∧
    ∀ x rest, s.audioQueue = x :: rest →
      (finishAudio s).isPlayingQueue = true ∧
      (finishAudio s).audioRef = some (x, AudioHandler.queueAuto) ∧
      (finishAudio s).audioQueue = rest ∧
      (finishAudio s).startedLog = s.startedLog ++ [x] := by
  rw [finish_eq_queue s p h]
  constructor
  · intro hqu
    rw [playNext_eq_nil _
      (show ({ s with audioRef := none } : PQState α).audioQueue = []
        from hqu)]
    exact ⟨rfl, rfl, rfl⟩
  · intro x rest hqu
    rw [playNext_eq_cons _ x rest
      (show ({ s with audioRef := none } : PQState α).audioQueue = x :: rest
        from hqu)]
    exact ⟨rfl, rfl, rfl, rfl⟩

/-- Concrete state used to witness the queue-advance theorem. -/
def c6State : PQState Nat :=
  { audioQueue := [7], isPlayingQueue := true,
    audioRef := some (5, AudioHandler.queueAuto),
    playingIndex := some 5, startedLog := [5], submitted := [5, 7] }

/-- C6 (witness): finishing the playing payload of the concrete state
advances playback to the single queued entry. -/
theorem queue_advances_on_finish_witness :
    (c6State.audioRef = some (5, AudioHandler.queueAuto) ∧
     c6State.audioQueue = 7 :: []) ∧
    ((finishAudio c6State).isPlayingQueue = true ∧
     (finishAudio c6State).audioRef = some (7, AudioHandler.queueAuto) ∧
     (finishAudio c6State).audioQueue = [] ∧
     (finishAudio c6State).startedLog = [5] ++ [7]) :=
  ⟨⟨rfl, rfl⟩, (queue_advances_on_finish c6State 5 rfl).2 7 [] rfl⟩

/-- C10: `playAudio` and the handlers it installs never touch the queue,
never call `playNextInQueue`, and never clear the consumer flag; so after a
manual replay interrupts auto-play (flag set) and then ends, the queued
entries are still enqueued, nothing starts playing, and later submissions
only enqueue (the consumer only restarts when the flag is false). -/
theorem manual_replay_blocks_queue (s : PQState α) (r : α)
    (h : s.isPlayingQueue = true) :
    (finishAudio (playAudio s r)).audioQueue = s.audioQueue ∧
    (finishAudio (playAudio s r)).isPlayingQueue = true ∧
    (finishAudio (playAudio s r)).audioRef = none ∧
    (finishAudio (playAudio s r)).startedLog = s.startedLog ++ [r] ∧
    ∀ r2,
      (submitResult (finishAudio (playAudio s r)) r2).startedLog =
        (finishAudio (playAudio s r)).startedLog ∧
      (submitResult (finishAudio (playAudio s r)) r2).audioQueue =
        (finishAudio (playAudio s r)).audioQueue ++ [r2] ∧
      (submitResult (finishAudio (playAudio s r)) r2).audioRef = none := by
  have hfin : finishAudio (playAudio s r) =
      { s with audioRef := none, playingIndex := none,
               startedLog := s.startedLog ++ [r] } :=
    finish_eq_manual (playAudio s r) r rfl
  refine ⟨by rw [hfin], by rw [hfin]; exact h, by rw [hfin], by rw [hfin], ?_⟩
  intro r2
  rw [hfin, submitResult_eq]
  have hcond :
      ({ s with audioRef := none, playingIndex := none,
                startedLog := s.startedLog ++ [r] } : PQState α).isPlayingQueue =
        true := h
  rw [if_pos hcond]
  exact ⟨rfl, rfl, rfl⟩

/-- Concrete auto-playing state used to witness the manual-replay theorem. -/
def c10State : PQState Nat :=
  { audioQueue := [10], isPlayingQueue := true,
    audioRef := some (5, AudioHandler.queueAuto),
    playingIndex := some 5, startedLog := [5], submitted := [5, 10] }

/-- C10 (witness): a manual replay of payload 99 interrupts the concrete
auto-playing state and then finishes; the queued entry 10 stays queued and
nothing starts playing. -/
theorem manual_replay_blocks_queue_witness :
    c10State.isPlayingQueue = true ∧
    ((finishAudio (playAudio c10State 99)).audioQueue = [10] ∧
     (finishAudio (playAudio c10State 99)).isPlayingQueue = true ∧
     (finishAudio (playAudio c10State 99)).audioRef = none ∧
     (finishAudio (playAudio c10State 99)).startedLog = [5] ++ [99]) := by
  have hmain := manual_replay_blocks_queue c10State 99 rfl
  exact ⟨rfl, hmain.1, hmain.2.1, hmain.2.2.1, hmain.2.2.2.1⟩

/-! ### Batch translation request

`sendAudioToBackend` (`VoiceRecorder.tsx` lines 394-438, identical in the
unnamed batch recorder except for the timestamp representation): one POST of
the complete audio blob with `source_lang` and `target_lang`; a non-ok
response throws `errorData.error || 'Translation failed'`; an ok response
with `success` delivers one result with `is_final: true`; an ok response
without `success` throws `data.error || 'Translation failed'`; a rejected
fetch throws its own error whose message is reported.  The `catch` reports
the message through `onError` and the `finally` always clears
`isProcessing`.  JSON bodies are modelled as already parsed.  The function
is stateless apart from the flag, so re-invoking it is always possible. -/

/-- Parsed JSON body of a `/api/translate` response. -/
structure TranslateBody where
  success : Bool
  error : Option String
  original_text : String
  translated_text : String
  audio_base64 : String
  sample_rate : Nat
  latency_ms : ℚ
  confidence : ℚ
deriving DecidableEq

/-- Outcome of the fetch: rejection (network error, whose message the catch
block reports) or an HTTP response with its ok flag and body. -/
inductive TranslateResponse where
  | networkFailure (msg : String) : TranslateResponse
  | http (ok : Bool) (body : TranslateBody) : TranslateResponse
deriving DecidableEq

/-- The TranslationResult record delivered to `onTranslation`. -/
structure TranslationResult where
  original_text : String
  translated_text : String
  audio_base64 : String
  sample_rate : Nat
  latency_ms : ℚ
  confidence : ℚ
  timestamp : Nat
  is_final : Option Bool
deriving DecidableEq

/-- What the caller observes: one delivered result, or one reported error
message. -/
inductive BatchOutcome where
  | delivered (r : TranslationResult) : BatchOutcome
  | reported (msg : String) : BatchOutcome
deriving DecidableEq

/-- The result record built on success (`is_final: true`, timestamp from the
clock). -/
def mkBatchResult (now : Nat) (body : TranslateBody) : TranslationResult :=
  { original_text := body.original_text,
    translated_text := body.translated_text,
    audio_base64 := body.audio_base64,
    sample_rate := body.sample_rate,
    latency_ms := body.latency_ms,
    confidence := body.confidence,
    timestamp := now,
    is_final := some true }

/-- `sendAudioToBackend`, as a function of the single response it gets back;
the second component is the `isProcessing` flag after the call. -/
def sendAudioToBackend (now : Nat) (resp : TranslateResponse) :
    BatchOutcome × Bool :=
  match resp with
  | TranslateResponse.networkFailure m => (BatchOutcome.reported m, false)
  | TranslateResponse.http ok body =>
    if !ok then
      (BatchOutcome.reported (body.error.getD "Translation failed"), false)
    else if body.success then
      (BatchOutcome.delivered (mkBatchResult now body), false)
    else
      (BatchOutcome.reported (body.error.getD "Translation failed"), false)

/-- C7: the one-shot batch request delivers exactly one result with
`is_final` set on a success response; on a non-success response it reports
the error field of the body when present and the generic fallback message
otherwise, and on a network failure it reports that failure; in every
outcome the processing flag ends cleared, and the function keeps no other
state, so the caller can simply re-invoke it to retry. -/
theorem sendAudioToBackend_spec (now : Nat) (resp : TranslateResponse) :
    (sendAudioToBackend now resp).2 = false ∧
    (∀ body, resp = TranslateResponse.http true body → body.success = true →
      (sendAudioToBackend now resp).1 =
        BatchOutcome.delivered (mkBatchResult now body) ∧
      (mkBatchResult now body).is_final = some true) ∧
    (∀ body, resp = TranslateResponse.http false body →
      (sendAudioToBackend now resp).1 =
        BatchOutcome.reported (body.error.getD "Translation failed")) ∧
    (∀ body, resp = TranslateResponse.http true body → body.success = false →
      (sendAudioToBackend now resp).1 =
        BatchOutcome.reported (body.error.getD "Translation failed")) ∧
    (∀ m, resp = TranslateResponse.networkFailure m →
      (sendAudioToBackend now resp).1 = BatchOutcome.reported m) := by
  cases resp with
  | networkFailure m =>
    refine ⟨rfl, ?_, ?_, ?_, ?_⟩
    · intro body h
      simp at h
    · intro body h
      simp at h
    · intro body h
      simp at h
    · intro m2 h
      cases h
      rfl
  | http ok body0 =>
    cases ok with
    | false =>
      refine ⟨rfl, ?_, ?_, ?_, ?_⟩
      · intro body h
        simp at h
      · intro body h
        cases h
        rfl
      · intro body h
        simp at h
      · intro m h
        simp at h
    | true =>
      by_cases hs : body0.success = true
      · have he : sendAudioToBackend now (TranslateResponse.http true body0) =
            (BatchOutcome.delivered (mkBatchResult now body0), false) := by
          simp [sendAudioToBackend, hs]
        refine ⟨by rw [he], ?_, ?_, ?_, ?_⟩
        · intro body h hsucc
          cases h
          exact ⟨by rw [he], rfl⟩
        · intro body h
          simp at h
        · intro body h hsucc
          cases h
          simp [hs] at hsucc
        · intro m h
          simp at h
      · have hs2 : body0.success = false := by
          revert hs
          cases body0.success <;> simp
        have he : sendAudioToBackend now (TranslateResponse.http true body0) =
            (BatchOutcome.reported (body0.error.getD "Translation failed"),
              false) := by
          simp [sendAudioToBackend, hs2]
        refine ⟨by rw [he], ?_, ?_, ?_, ?_⟩
        · intro body h hsucc
          cases h
          simp [hs2] at hsucc
        · intro body h
          simp at h
        · intro body h hsucc
          cases h
          rw [he]
        · intro m h
          simp at h

/-- Concrete success body used to witness the batch request theorem. -/
def c7Body : TranslateBody :=
  { success := true, error := none, original_text := "hello",
    translated_text := "hola", audio_base64 := "AAAA",
    sample_rate := 16000, latency_ms := 120, confidence := 9 / 10 }

/-- C7 (witness): the theorem evaluated on a concrete success response. -/
theorem sendAudioToBackend_spec_witness :
    (sendAudioToBackend 0 (TranslateResponse.http true c7Body)).2 = false ∧
    ((sendAudioToBackend 0 (TranslateResponse.http true c7Body)).1 =
      BatchOutcome.delivered (mkBatchResult 0 c7Body) ∧
     (mkBatchResult 0 c7Body).is_final = some true) :=
  ⟨(sendAudioToBackend_spec 0 (TranslateResponse.http true c7Body)).1,
   (sendAudioToBackend_spec 0 (TranslateResponse.http true c7Body)).2.1
     c7Body rfl rfl⟩

/-! ### Start-of-recording failure classification

`startRecording` (`VoiceRecorder.tsx` lines 440-622).  On a `getUserMedia`
failure the catch block (lines 591-622) classifies a `DOMException` by name
(`NotAllowedError`, `NotFoundError`, `NotReadableError`,
`OverconstrainedError`, `SecurityError`, other), or uses the message of any
other `Error` (such as the insecure-context guard thrown before the
request), reports the message through `onError`, and returns without ever
reaching `setIsRecording(true)`, the `start_translation` emit, or any
recorder whose stop handler would POST.  On success, recording starts, and
a streaming request is opened only in realtime mode with a connected
socket. -/

/-- The ways microphone acquisition fails. -/
inductive MicFailure where
  | notAllowed : MicFailure
  | notFound : MicFailure
  | notReadable : MicFailure
  | overconstrained : MicFailure
  | security : MicFailure
  | domOther (msg : String) : MicFailure
  | jsError (msg : String) : MicFailure
deriving DecidableEq

/-- The catch block of `startRecording`: failure name to human-readable
message. -/
def classifyMicFailure : MicFailure → String
  | MicFailure.notAllowed =>
      "Microphone permission denied. Please allow microphone access."
  | MicFailure.notFound => "No microphone found. Please connect a microphone."
  | MicFailure.notReadable => "Microphone is in use by another application."
  | MicFailure.overconstrained => "Could not satisfy audio constraints."
  | MicFailure.security => "Microphone access blocked. Use HTTPS or localhost."
  | MicFailure.domOther m => "Microphone error: " ++ m
  | MicFailure.jsError m => m

/-- The two recorder modes. -/
inductive RecorderMode where
  | realtime : RecorderMode
  | batch : RecorderMode
deriving DecidableEq

/-- What a `start()` attempt leaves behind: whether recording began, the
error reported to `onError` (if any), and whether any translation request
was opened. -/
structure StartOutcome where
  isRecording : Bool
  errorReported : Option String
  translationRequestOpened : Bool
deriving DecidableEq

/-- `startRecording` as a function of the microphone acquisition outcome. -/
def startRecording (mode : RecorderMode) (socketConnected : Bool)
    (mic : Except MicFailure Unit) : StartOutcome :=
  match mic with
  | Except.error e =>
      { isRecording := false,
        errorReported := some (classifyMicFailure e),
        translationRequestOpened := false }
  | Except.ok _ =>
      match mode, socketConnected with
      | RecorderMode.realtime, true =>
          { isRecording := true, errorReported := none,
            translationRequestOpened := true }
      | _, _ =>
          { isRecording := true, errorReported := none,
            translationRequestOpened := false }

/-- C8: a failed microphone acquisition ends the start attempt with a
classified human-readable cause reported to the caller, recording not
started, and no translation request opened (in batch mode in particular, a
permission denial opens nothing); the five classified causes — permission
denied, device absent, device busy, constraint unsatisfiable, insecure
context — carry pairwise distinct messages. -/
theorem startRecording_mic_failure_spec :
    (∀ (mode : RecorderMode) (sc : Bool) (e : MicFailure),
      startRecording mode sc (Except.error e) =
        { isRecording := false,
          errorReported := some (classifyMicFailure e),
          translationRequestOpened := false }) ∧
    List.Pairwise (fun a b => a ≠ b)
      [classifyMicFailure MicFailure.notAllowed,
       classifyMicFailure MicFailure.notFound,
       classifyMicFailure MicFailure.notReadable,
       classifyMicFailure MicFailure.overconstrained,
       classifyMicFailure MicFailure.security] :=
  ⟨fun _ _ _ => rfl, by decide⟩

/-! ### Health probe (`src/unnamed/part_001`)

`checkHealth` (lines 42-81) runs on mount and then every 5000 ms, aborts
each attempt after 3000 ms, and sets `isConnected` from the response:
`response.ok` (HTTP status 200-299) followed by a successful
`response.json()` parse sets it true; a non-ok status, a JSON parse failure,
a network failure or the timeout set it false.  The record button (lines
259-269) is disabled whenever `isConnected` is false. -/

/-- Outcome of one `fetch` of `/health`: network failure or abort, or a
response with its HTTP status and whether its body parses as JSON.  For the
null-body statuses (204, 205, 304) the platform never delivers a body, so
`response.json()` always rejects and any realizable value carries
`jsonBody = false` there; statuses such as 200 or 201 can carry either. -/
inductive HealthResponse where
  | networkFailure : HealthResponse
  | http (status : Nat) (jsonBody : Bool) : HealthResponse
deriving DecidableEq

/-- `response.ok`: status in the range 200-299. -/
def responseOk (status : Nat) : Bool := decide (200 ≤ status ∧ status ≤ 299)

/-- The value `checkHealth` stores into `isConnected`. -/
def checkHealth : HealthResponse → Bool
  | HealthResponse.networkFailure => false
  | HealthResponse.http status jsonBody =>
      if responseOk status then jsonBody else false

/-- Probe interval: `setInterval(checkHealth, 5000)`. -/
def healthProbeIntervalMs : Nat := 5000

/-- Per-attempt timeout: `setTimeout(() => controller.abort(), 3000)`. -/
def healthProbeTimeoutMs : Nat := 3000

/-- The record button gate: `disabled={!isConnected || isProcessing}`. -/
def recordButtonDisabled (isConnected isProcessing : Bool) : Bool :=
  !isConnected || isProcessing

/-- C9 (counterexample): a 201 response with a JSON body (a realizable
response — 201 carries a body) sets the reachability flag to true although
its status is not 200, so the flag is not `status = 200`-based. -/
theorem checkHealth_status_counterexample :
    checkHealth (HealthResponse.http 201 true) = true ∧ (201 : Nat) ≠ 200 := by
  decide

/-- C9 (amended): the probe (every 5000 ms, 3000 ms per-attempt timeout)
sets the reachability flag to true exactly when the response status is in
200-299 (`response.ok`) and the body parses as JSON; any other status, a
parse failure, a network failure or a timeout sets it false; and while the
flag is false the record button is disabled, so recording cannot start. -/
theorem checkHealth_spec :
    (∀ (st : Nat) (j : Bool), checkHealth (HealthResponse.http st j) = true ↔
      (200 ≤ st ∧ st ≤ 299 ∧ j = true)) ∧
    checkHealth HealthResponse.networkFailure = false ∧
    healthProbeIntervalMs = 5000 ∧
    healthProbeTimeoutMs = 3000 ∧
    (∀ p, recordButtonDisabled false p = true) := by
  refine ⟨?_, rfl, rfl, rfl, fun p => rfl⟩
  intro st j
  by_cases hok : 200 ≤ st ∧ st ≤ 299
  · simp [checkHealth, responseOk, hok]
  · simp [checkHealth, responseOk, hok]
    tauto

end RTVT
